import Mathlib

/-!
Verification of the mtree manifest parser in `src/main.rs`.

The repository contains two parallel implementations of the same
line-oriented manifest grammar: a chumsky-combinator parser
(`parser_chumsky`) and a winnow-combinator parser (`parser`, built from
`value`, `default_property`, `property`, `statement`, ...).  Both are
embedded here shallowly: a parser is a function from the remaining input
(`List Char`) to a result that is either success with the remaining
input, a backtracking failure, or a Rust panic (the source uses
`panic!` / `.unwrap()` inside parse closures, so panics are a reachable
third outcome and are modelled explicitly).

Machine integers: Rust `usize` is modelled as `Nat` together with the
explicit bound `USIZE_MAX = 2 ^ 64 - 1` (the 64-bit target the crate is
built for); `str::parse::<usize>` is modelled by `parseUsize`, which
accepts an optional leading `+`, one or more decimal digits, and fails
on overflow, matching `core::num::from_str_radix`.
-/

/-- ASCII decimal digit, `char::is_digit(10)`. -/
def isDigitC (c : Char) : Bool := '0' ≤ c && c ≤ '9'

/-- ASCII octal digit, `char::is_digit(8)`. -/
def isOctC (c : Char) : Bool := '0' ≤ c && c ≤ '7'

/-- ASCII hexadecimal digit, `char::is_digit(16)`. -/
def isHexC (c : Char) : Bool :=
  isDigitC c || ('a' ≤ c && c ≤ 'f') || ('A' ≤ c && c ≤ 'F')

/-- ASCII letter, winnow's `alpha1` character class. -/
def isAlphaC (c : Char) : Bool := ('a' ≤ c && c ≤ 'z') || ('A' ≤ c && c ≤ 'Z')

/-- ASCII letter or digit, winnow's `alphanumeric1` character class. -/
def isAlnumC (c : Char) : Bool := isAlphaC c || isDigitC c

/-- Identifier continuation character for chumsky's `ascii::keyword`
(ASCII alphanumeric or underscore). -/
def isIdentC (c : Char) : Bool := isAlnumC c || c = '_'

/-- Rust `char::is_whitespace` (the Unicode `White_Space` set), used by
chumsky's `.padded()`. -/
def isWsC (c : Char) : Bool :=
  c ∈ [' ', '\t', '\n', '\r', Char.ofNat 0x0B, Char.ofNat 0x0C,
       Char.ofNat 0x85, Char.ofNat 0xA0, Char.ofNat 0x1680,
       Char.ofNat 0x2000, Char.ofNat 0x2001, Char.ofNat 0x2002,
       Char.ofNat 0x2003, Char.ofNat 0x2004, Char.ofNat 0x2005,
       Char.ofNat 0x2006, Char.ofNat 0x2007, Char.ofNat 0x2008,
       Char.ofNat 0x2009, Char.ofNat 0x200A, Char.ofNat 0x2028,
       Char.ofNat 0x2029, Char.ofNat 0x202F, Char.ofNat 0x205F,
       Char.ofNat 0x3000]

/-- winnow `space0`/`space1` character class (space or tab). -/
def isSpaceTabC (c : Char) : Bool := c = ' ' || c = '\t'

/-- The characters at which winnow's `value` helper stops:
`take_till(0.., |c| c == ' ' || c == '\n')`. -/
def isValueStopC (c : Char) : Bool := c = ' ' || c = '\n'

/-- Numeric value of a string of decimal digits, most significant first. -/
def natOfDigits (s : List Char) : Nat :=
  s.foldl (fun n c => 10 * n + (c.toNat - '0'.toNat)) 0

/-- `usize::MAX` on the 64-bit target the crate is built for. -/
def USIZE_MAX : Nat := 2 ^ 64 - 1

/-- Strip one optional leading `+` sign, as Rust's integer `from_str` does. -/
def stripPlus : List Char → List Char
  | [] => []
  | c :: r => if c = '+' then r else c :: r

/-- Model of Rust `str::parse::<usize>`: optional `+`, one or more decimal
digits, and the value must fit in `usize`. -/
def parseUsize (s : List Char) : Option Nat :=
  let t := stripPlus s
  if !t.isEmpty && t.all isDigitC then
    if natOfDigits t ≤ USIZE_MAX then some (natOfDigits t) else none
  else none

/-- Model of Rust `str::split_once('.')` on the character list: split at the
first `.`, or `none` when there is no `.`. -/
def splitOnceDot : List Char → Option (List Char × List Char)
  | [] => none
  | c :: r =>
    if c = '.' then some ([], r)
    else
      match splitOnceDot r with
      | some (a, b) => some (c :: a, b)
      | none => none

/-- Outcome of running an embedded parser: success with a value and the
remaining input, a backtracking parse failure, or a Rust panic. -/
inductive PRes (α : Type) where
  | ok (val : α) (rest : List Char)
  | fail
  | panicked
deriving DecidableEq

/-- An embedded parser over the remaining input. -/
abbrev P (α : Type) := List Char → PRes α

/-- Outcome of a `verify_map` closure: accept, reject (backtrack), or panic. -/
inductive VRes (α : Type) where
  | accept (a : α)
  | reject
  | panicked
deriving DecidableEq

/-- Sequence two parsers, passing the first result to the second. -/
def pbind {α β : Type} (p : P α) (f : α → P β) : P β := fun i =>
  match p i with
  | .ok a rest => f a rest
  | .fail => .fail
  | .panicked => .panicked

/-- Always succeed without consuming input. -/
def ppure {α : Type} (a : α) : P α := fun i => .ok a i

/-- `map`: transform a parser's output. -/
def pmap {α β : Type} (p : P α) (f : α → β) : P β :=
  pbind p (fun a => ppure (f a))

/-- A `map` whose closure may panic (Rust `.unwrap()` on the mapped value):
`none` from the closure is a panic, not a parse failure. -/
def pmapPanic {α β : Type} (p : P α) (f : α → Option β) : P β := fun i =>
  match p i with
  | .ok a rest =>
    match f a with
    | some b => .ok b rest
    | none => .panicked
  | .fail => .fail
  | .panicked => .panicked

/-- winnow's `verify_map`: the closure can accept, reject (backtrack) or
panic (the source closures contain `panic!`). -/
def pverifyMap {α β : Type} (p : P α) (f : α → VRes β) : P β := fun i =>
  match p i with
  | .ok a rest =>
    match f a with
    | .accept b => .ok b rest
    | .reject => .fail
    | .panicked => .panicked
  | .fail => .fail
  | .panicked => .panicked

/-- `then` / tupling sequencing. -/
def pthen {α β : Type} (p : P α) (q : P β) : P (α × β) :=
  pbind p (fun a => pmap q (fun b => (a, b)))

/-- `then_ignore` / `terminated`: keep the first result. -/
def pleft {α β : Type} (p : P α) (q : P β) : P α :=
  pbind p (fun a => pmap q (fun _ => a))

/-- `ignore_then` / `preceded`: keep the second result. -/
def pright {α β : Type} (p : P α) (q : P β) : P β :=
  pbind p (fun _ => q)

/-- `delimited(a, b, c)`: keep the middle result. -/
def pdelimited {α β γ : Type} (a : P α) (b : P β) (c : P γ) : P β :=
  pleft (pright a b) c

/-- `.to(x)`: replace the result by a constant. -/
def pto {α β : Type} (p : P α) (b : β) : P β := pmap p (fun _ => b)

/-- Never succeed. -/
def pfail {α : Type} : P α := fun _ => .fail

/-- Ordered choice with backtracking on failure; a panic propagates. -/
def palt {α : Type} (p q : P α) : P α := fun i =>
  match p i with
  | .fail => q i
  | r => r

/-- chumsky `choice` / winnow `alt` over a list of alternatives. -/
def pchoice {α : Type} (ps : List (P α)) : P α := ps.foldr palt pfail

/-- Literal string parser (`just(s)` / a winnow `&str` literal). -/
def pstr (s : String) : P Unit := fun i =>
  if s.toList.isPrefixOf i then .ok () (i.drop s.toList.length) else .fail

/-- Literal character parser (`just(c)` / a winnow `char` literal). -/
def pchar (c : Char) : P Unit := fun i =>
  match i with
  | x :: r => if x = c then .ok () r else .fail
  | [] => .fail

/-- Maximal (possibly empty) run of characters satisfying `pred`
(`take_till` with the negated predicate, `none_of(..).repeated()`). -/
def ptakeWhile (pred : Char → Bool) : P (List Char) := fun i =>
  .ok (i.takeWhile pred) (i.dropWhile pred)

/-- Maximal nonempty run of characters satisfying `pred` (`text::digits`,
`alpha1`, `alphanumeric1`, `space1`). -/
def ptakeWhile1 (pred : Char → Bool) : P (List Char) := fun i =>
  match i.takeWhile pred with
  | [] => .fail
  | l => .ok l (i.dropWhile pred)

/-- chumsky `ascii::keyword(s)`: the literal `s` not followed by an
identifier character. -/
def pkeyword (s : String) : P Unit := fun i =>
  if s.toList.isPrefixOf i then
    match i.drop s.toList.length with
    | [] => .ok () []
    | c :: r => if isIdentC c then .fail else .ok () (c :: r)
  else .fail

/-- chumsky `text::newline()`: `\r\n` or a single newline-class character. -/
def pnewline : P Unit :=
  palt (pstr "\r\n")
    (fun i =>
      match i with
      | c :: r =>
        if c ∈ ['\n', Char.ofNat 0x0B, Char.ofNat 0x0C, '\r',
                Char.ofNat 0x85, Char.ofNat 0x2028, Char.ofNat 0x2029]
        then .ok () r else .fail
      | [] => .fail)

/-- winnow `line_ending`: `\n` or `\r\n`, producing the matched slice. -/
def line_ending : P (List Char) :=
  palt (pto (pstr "\n") "\n".toList) (pto (pstr "\r\n") "\r\n".toList)

/-- winnow `space0`. -/
def space0 : P (List Char) := ptakeWhile isSpaceTabC

/-- winnow `space1`. -/
def space1 : P (List Char) := ptakeWhile1 isSpaceTabC

/-- winnow `alpha1`. -/
def alpha1 : P (List Char) := ptakeWhile1 isAlphaC

/-- winnow `alphanumeric1`. -/
def alphanumeric1 : P (List Char) := ptakeWhile1 isAlnumC

/-- Fuelled greedy repetition.  Both libraries reject or diverge when the
repeated parser succeeds without consuming input, so that case is a failure
here; none of the embedded grammars ever reaches it.  The fuel is the input
length plus one, which a consuming iteration can never exhaust. -/
def prepeatAux {α : Type} (p : P α) : Nat → List Char → PRes (List α)
  | 0, i => .ok [] i
  | fuel + 1, i =>
    match p i with
    | .fail => .ok [] i
    | .panicked => .panicked
    | .ok a rest =>
      if rest.length < i.length then
        match prepeatAux p fuel rest with
        | .ok as r2 => .ok (a :: as) r2
        | r => r
      else .fail

/-- chumsky `.repeated().collect()` / winnow `repeat(0.., _)`. -/
def prepeat {α : Type} (p : P α) : P (List α) := fun i =>
  prepeatAux p (i.length + 1) i

/-- chumsky `.padded()`: skip `char::is_whitespace` on both sides. -/
def ppadded {α : Type} (p : P α) : P α :=
  pright (ptakeWhile isWsC) (pleft p (ptakeWhile isWsC))

/-- `.to_slice()` / winnow `.take()`: the exact input consumed by `p`. -/
def ptoSlice {α : Type} (p : P α) : P (List Char) := fun i =>
  match p i with
  | .ok _ rest => .ok (i.take (i.length - rest.length)) rest
  | .fail => .fail
  | .panicked => .panicked

/-! ## The data model of `src/main.rs` -/

/-- `enum PathType`: what kind of entry a path is. -/
inductive PathType where
  | dir
  | file
  | link
deriving DecidableEq

/-- `enum DefaultProperty`: properties allowed in `/set` and `/unset`
lines (`Uid`, `Gid`, `Mode`, `Type`). -/
inductive DefaultProperty where
  | uid (n : Nat)
  | gid (n : Nat)
  | mode (s : String)
  | typ (t : PathType)
deriving DecidableEq

/-- `enum Property`: properties allowed in a path line
(`Mode`, `Type`, `Size`, `Link`, `Sha256Digest`, `Time`). -/
inductive Property where
  | mode (s : String)
  | typ (t : PathType)
  | size (n : Nat)
  | link (s : String)
  | sha256digest (s : String)
  | time (n : Nat)
deriving DecidableEq

/-- `enum Statement`: one line of a `.MTREE` file. -/
inductive Statement where
  | init
  | set (ps : List DefaultProperty)
  | unset (ps : List DefaultProperty)
  | path (p : String) (properties : List Property)
deriving DecidableEq

/-! ## The winnow implementation (`value` .. `parser` in `src/main.rs`) -/

namespace Winnow

/-- `value`: take until a space or `\n`, then require a space run or a
line ending. -/
def value : P String :=
  pmap
    (pleft (ptakeWhile (fun c => !isValueStopC c)) (palt space1 line_ending))
    String.mk

/-- `init`: the `#mtree` header line. -/
def init : P Statement :=
  pto (pleft (pstr "#mtree") line_ending) Statement.init

/-- `default_property`: `key=value` with `verify_map`; unknown keys and
unknown `type` values hit `panic!` in the source closure. -/
def default_property : P DefaultProperty :=
  pverifyMap (pthen (pleft (pmap alpha1 String.mk) (pstr "=")) value)
    (fun kv =>
      let k := kv.1
      let v := kv.2
      if k = "uid" then
        match parseUsize v.toList with
        | some n => .accept (.uid n)
        | none => .reject
      else if k = "gid" then
        match parseUsize v.toList with
        | some n => .accept (.gid n)
        | none => .reject
      else if k = "type" then
        if v = "dir" then .accept (.typ .dir)
        else if v = "file" then .accept (.typ .file)
        else if v = "link" then .accept (.typ .link)
        else .panicked
      else if k = "mode" then .accept (.mode v)
      else .panicked)

/-- `default_properties`: `repeat(0.., default_property)`. -/
def default_properties : P (List DefaultProperty) := prepeat default_property

/-- `set`: `delimited(("/set", space0), default_properties, line_ending)`. -/
def set : P Statement :=
  pmap (pdelimited (pthen (pstr "/set") space0) default_properties line_ending)
    Statement.set

/-- `unset`: `delimited(("/unset", space0), default_properties, line_ending)`. -/
def unset : P Statement :=
  pmap (pdelimited (pthen (pstr "/unset") space0) default_properties line_ending)
    Statement.unset

/-- `property`: `key=value` with `verify_map`; unknown keys and unknown
`type` values hit `panic!` in the source closure. -/
def property : P Property :=
  pverifyMap (pthen (pleft (pmap alphanumeric1 String.mk) (pstr "=")) value)
    (fun kv =>
      let k := kv.1
      let v := kv.2
      if k = "type" then
        if v = "dir" then .accept (.typ .dir)
        else if v = "file" then .accept (.typ .file)
        else if v = "link" then .accept (.typ .link)
        else .panicked
      else if k = "mode" then .accept (.mode v)
      else if k = "size" then
        match parseUsize v.toList with
        | some n => .accept (.size n)
        | none => .reject
      else if k = "link" then .accept (.link v)
      else if k = "sha256digest" then .accept (.sha256digest v)
      else if k = "time" then
        match splitOnceDot v.toList with
        | some ab =>
          match parseUsize ab.1 with
          | some n => .accept (.time n)
          | none => .reject
        | none => .reject
      else .panicked)

/-- `properties`: `repeat(0.., property)`. -/
def properties : P (List Property) := prepeat property

/-- `path`: `preceded(".", value)` then
`delimited(' ', properties, line_ending)` (the helper that is shadowed by
`statement` in the actual `parser`; note it drops the leading dot). -/
def path : P Statement :=
  pbind (pright (pstr ".") value)
    (fun p =>
      pmap (pdelimited (pchar ' ') properties line_ending)
        (fun props => Statement.path p props))

/-- `statement`: dispatch on the matched statement prefix.  The first
alternative takes the slice consumed by `(".", value)`, which includes the
terminating whitespace of `value`. -/
def statement : P Statement :=
  pbind
    (pchoice
      [ptoSlice (pthen (pstr ".") value),
       pto (pstr "/set ") "/set ".toList,
       pto (pstr "/unset ") "/unset ".toList,
       pto (pleft (pstr "#mtree") line_ending) "#mtree".toList])
    (fun stType =>
      let s := String.mk stType
      if s = "/set " then pmap default_properties Statement.set
      else if s = "/unset " then pmap default_properties Statement.unset
      else if s = "#mtree" then ppure Statement.init
      else pmap properties (Statement.path s))

/-- `parser`: `repeat(0.., statement)`; winnow's `parse_next` does not
require the input to be fully consumed. -/
def parser : P (List Statement) := prepeat statement

end Winnow

/-! ## The chumsky implementation (`parser_chumsky` in `src/main.rs`) -/

namespace Chumsky

/-- `mtree`: `just("#")` then `keyword("mtree")` then a newline, to `Init`. -/
def mtree : P Statement :=
  pto (pleft (pthen (pstr "#") (pkeyword "mtree")) pnewline) Statement.init

/-- The `type` value alternatives, `dir`, `file` or `link`. -/
def type_value : P PathType :=
  pchoice
    [pto (pkeyword "dir") PathType.dir,
     pto (pkeyword "file") PathType.file,
     pto (pkeyword "link") PathType.link]

/-- One alternative of the `/set`-`/unset` property choice: `uid`/`gid`
(decimal digits, parsed with `.unwrap()`, hence a panic on overflow),
`mode` (octal digits, kept as the raw slice) or `type`. -/
def default_alt : P DefaultProperty :=
  pchoice
    [pmapPanic (pright (pthen (pkeyword "uid") (pchar '=')) (ptakeWhile1 isDigitC))
       (fun s => (parseUsize s).map DefaultProperty.uid),
     pmapPanic (pright (pthen (pkeyword "gid") (pchar '=')) (ptakeWhile1 isDigitC))
       (fun s => (parseUsize s).map DefaultProperty.gid),
     pmap (pright (pthen (pkeyword "mode") (pchar '=')) (ptakeWhile1 isOctC))
       (fun s => DefaultProperty.mode (String.mk s)),
     pmap (pright (pthen (pkeyword "type") (pchar '=')) type_value)
       DefaultProperty.typ]

/-- The `/set`-`/unset` property list: the choice above, `.padded()` and
repeated. -/
def default_properties : P (List DefaultProperty) :=
  prepeat (ppadded default_alt)

/-- `set`: `just("/")` then `keyword("set")`, then the default properties. -/
def set : P Statement :=
  pmap (pright (pthen (pstr "/") (pkeyword "set")) default_properties)
    Statement.set

/-- `unset`: `just("/")` then `keyword("unset")`, always `Unset(vec![])` —
nothing after the keyword is consumed. -/
def unset : P Statement :=
  pto (pleft (pstr "/") (pkeyword "unset")) (Statement.unset [])

/-- One alternative of the path property choice: `mode` (octal digits),
`sha256digest` (hex digits of any length), `size` and `time` (decimal
digits, `.unwrap()`ed), `type`, or `link` (any run of non-space
characters). -/
def property_alt : P Property :=
  pchoice
    [pmap (pright (pthen (pkeyword "mode") (pchar '=')) (ptakeWhile1 isOctC))
       (fun s => Property.mode (String.mk s)),
     pmap
       (pright (pthen (pkeyword "sha256digest") (pchar '='))
         (ptakeWhile1 isHexC))
       (fun s => Property.sha256digest (String.mk s)),
     pmapPanic
       (pright (pthen (pkeyword "size") (pchar '=')) (ptakeWhile1 isDigitC))
       (fun s => (parseUsize s).map Property.size),
     pmapPanic
       (pleft
         (pleft (pright (pthen (pkeyword "time") (pchar '=')) (ptakeWhile1 isDigitC))
           (pchar '.'))
         (ptakeWhile1 isDigitC))
       (fun s => (parseUsize s).map Property.time),
     pmap (pright (pthen (pkeyword "type") (pchar '=')) type_value)
       Property.typ,
     pmap (pright (pthen (pkeyword "link") (pchar '=')) (ptakeWhile (fun c => c ≠ ' ')))
       (fun s => Property.link (String.mk s))]

/-- The path property list: the choice above, `.padded()` and repeated. -/
def properties : P (List Property) :=
  prepeat (ppadded property_alt)

/-- `path`: `just(".")` then `none_of(" ").repeated()`, the whole slice
(dot included) as the path, then the properties. -/
def path : P Statement :=
  pmap
    (pthen (ptoSlice (pthen (pstr ".") (ptakeWhile (fun c => c ≠ ' '))))
      properties)
    (fun pp => Statement.path (String.mk pp.1) pp.2)

/-- `parser_chumsky`: `choice((mtree, set, unset, path)).repeated()`. -/
def parser_chumsky : P (List Statement) :=
  prepeat (pchoice [mtree, set, unset, path])

/-- chumsky's `Parser::parse`: the whole input must be consumed. -/
def parse (i : List Char) : PRes (List Statement) :=
  match parser_chumsky i with
  | .ok v [] => .ok v []
  | .ok _ (_ :: _) => .fail
  | .fail => .fail
  | .panicked => .panicked

end Chumsky

/-! ## The default-scope resolver

The spec's §4.3 resolver (ambient `DefaultScope`, `ResolvedEntry`,
`Manifest`, `MisplacedHeader`) has no implementation under `src/`; only
the statement parsers exist.  The definitions below are therefore
modelled from the spec, over the `Statement` data model of the source. -/

/-- The four default-property keys of the ambient scope. -/
inductive DKey where
  | uid
  | gid
  | mode
  | typ
deriving DecidableEq

/-- The key carried by a `DefaultProperty`. -/
def dkey : DefaultProperty → DKey
  | .uid _ => .uid
  | .gid _ => .gid
  | .mode _ => .mode
  | .typ _ => .typ

/-- Modelled from the spec: `DefaultScope`, "a mapping from
{uid, gid, mode, type} to their current ambient value". -/
structure DefaultScope where
  uid : Option Nat
  gid : Option Nat
  mode : Option String
  typ : Option PathType
deriving DecidableEq

/-- The empty scope, "created empty at parse start". -/
def emptyScope : DefaultScope := ⟨none, none, none, none⟩

/-- Write/overwrite one default property into the scope. -/
def applyDefault (sc : DefaultScope) : DefaultProperty → DefaultScope
  | .uid n => ⟨some n, sc.gid, sc.mode, sc.typ⟩
  | .gid n => ⟨sc.uid, some n, sc.mode, sc.typ⟩
  | .mode m => ⟨sc.uid, sc.gid, some m, sc.typ⟩
  | .typ t => ⟨sc.uid, sc.gid, sc.mode, some t⟩

/-- Modelled from the spec: `SetDirective` writes each field into the
scope in order, so a repeated key keeps its last occurrence. -/
def setScope (sc : DefaultScope) (ps : List DefaultProperty) : DefaultScope :=
  ps.foldl applyDefault sc

/-- Remove one key from the scope. -/
def removeKey (sc : DefaultScope) : DKey → DefaultScope
  | .uid => ⟨none, sc.gid, sc.mode, sc.typ⟩
  | .gid => ⟨sc.uid, none, sc.mode, sc.typ⟩
  | .mode => ⟨sc.uid, sc.gid, none, sc.typ⟩
  | .typ => ⟨sc.uid, sc.gid, sc.mode, none⟩

/-- Modelled from the spec: `UnsetDirective` removes the named keys, or
every key when none are named. -/
def unsetScope (sc : DefaultScope) (ps : List DefaultProperty) : DefaultScope :=
  match ps with
  | [] => emptyScope
  | _ => ps.foldl (fun s p => removeKey s (dkey p)) sc

/-- Modelled from the spec: `ResolvedEntry`, a path entry's final
attribute set; `uid`/`gid` have no field here, matching the source's
disjoint `Property` key set. -/
structure ResolvedEntry where
  path : String
  mode : Option String
  typ : Option PathType
  size : Option Nat
  link : Option String
  digest : Option String
  time : Option Nat
deriving DecidableEq

/-- Overwrite one explicit path property into a resolved entry. -/
def applyProp (e : ResolvedEntry) : Property → ResolvedEntry
  | .mode m => ⟨e.path, some m, e.typ, e.size, e.link, e.digest, e.time⟩
  | .typ t => ⟨e.path, e.mode, some t, e.size, e.link, e.digest, e.time⟩
  | .size n => ⟨e.path, e.mode, e.typ, some n, e.link, e.digest, e.time⟩
  | .link l => ⟨e.path, e.mode, e.typ, e.size, some l, e.digest, e.time⟩
  | .sha256digest d => ⟨e.path, e.mode, e.typ, e.size, e.link, some d, e.time⟩
  | .time t => ⟨e.path, e.mode, e.typ, e.size, e.link, e.digest, some t⟩

/-- Modelled from the spec: a `ResolvedEntry` starts from the current
scope restricted to the path-entry keys (mode, type), then the entry's
explicit fields overwrite in order (explicit wins, last occurrence
wins). -/
def resolveEntry (sc : DefaultScope) (p : String) (props : List Property) :
    ResolvedEntry :=
  props.foldl applyProp ⟨p, sc.mode, sc.typ, none, none, none, none⟩

/-- Modelled from the spec: the only resolver-level diagnostic kind,
`MisplacedHeader`. -/
inductive Diagnostic where
  | misplacedHeader
deriving DecidableEq

/-- Resolver state: the ambient scope, the manifest built so far, and
the diagnostics collected so far. -/
structure RState where
  scope : DefaultScope
  manifest : List ResolvedEntry
  diags : List Diagnostic
deriving DecidableEq

/-- Modelled from the spec: one resolver transition.  `first` says
whether this statement is the first of the parse; a non-first `Init` is
a `MisplacedHeader` diagnostic and nothing else. -/
def resolveStep (first : Bool) (st : RState) : Statement → RState
  | .init =>
    if first then st
    else ⟨st.scope, st.manifest, st.diags ++ [.misplacedHeader]⟩
  | .set ps => ⟨setScope st.scope ps, st.manifest, st.diags⟩
  | .unset ps => ⟨unsetScope st.scope ps, st.manifest, st.diags⟩
  | .path p props =>
    ⟨st.scope, st.manifest ++ [resolveEntry st.scope p props], st.diags⟩

/-- Run the resolver over a statement list, tracking first-ness. -/
def resolveAllAux (first : Bool) (st : RState) : List Statement → RState
  | [] => st
  | s :: rest => resolveAllAux false (resolveStep first st s) rest

/-- Modelled from the spec: resolve a whole parse from the empty scope. -/
def resolveAll (l : List Statement) : RState :=
  resolveAllAux true ⟨emptyScope, [], []⟩ l

/-- The statements the resolver accepts (does not convert into a
diagnostic): every statement except a non-first `Init`. -/
def acceptedAux (first : Bool) : List Statement → List Statement
  | [] => []
  | .init :: rest =>
    if first then .init :: acceptedAux false rest else acceptedAux false rest
  | s :: rest => s :: acceptedAux false rest

/-- The accepted statement sequence of a parse. -/
def acceptedStmts (l : List Statement) : List Statement := acceptedAux true l

/-- Is a statement the `Init` header? -/
def isInitB : Statement → Bool
  | .init => true
  | _ => false

/-- First-of-two options, the "explicit field wins" merge. -/
def orD {α : Type} : Option α → Option α → Option α
  | some a, _ => some a
  | none, b => b

/-- The last explicit `mode` field of a property list, if any. -/
def lastModeOf : List Property → Option String
  | [] => none
  | .mode m :: rest => orD (lastModeOf rest) (some m)
  | _ :: rest => lastModeOf rest

/-- The last explicit `type` field of a property list, if any. -/
def lastTypeOf : List Property → Option PathType
  | [] => none
  | .typ t :: rest => orD (lastTypeOf rest) (some t)
  | _ :: rest => lastTypeOf rest

/-! ## Helper lemmas -/

theorem takeWhile_append_all {p : Char → Bool} {xs : List Char}
    (ys : List Char) (h : ∀ c ∈ xs, p c) :
    (xs ++ ys).takeWhile p = xs ++ ys.takeWhile p := by
  induction xs with
  | nil => simp
  | cons x xs ih =>
    simp only [List.cons_append, List.takeWhile_cons]
    rw [h x (by simp)]
    simp [ih (fun c hc => h c (by simp [hc]))]

theorem dropWhile_append_all {p : Char → Bool} {xs : List Char}
    (ys : List Char) (h : ∀ c ∈ xs, p c) :
    (xs ++ ys).dropWhile p = ys.dropWhile p := by
  induction xs with
  | nil => simp
  | cons x xs ih =>
    simp only [List.cons_append, List.dropWhile_cons]
    rw [h x (by simp)]
    simp [ih (fun c hc => h c (by simp [hc]))]

theorem pstr_append (s : String) (r : List Char) :
    pstr s (s.toList ++ r) = .ok () r := by
  unfold pstr
  rw [if_pos, List.drop_left]
  rw [List.isPrefixOf_iff_prefix]
  exact List.prefix_append _ _

theorem prepeatAux_nil {α : Type} {p : P α} (h : p [] = .fail) (fuel : Nat) :
    prepeatAux p fuel [] = .ok [] [] := by
  cases fuel with
  | zero => rfl
  | succ n => simp [prepeatAux, h]

theorem prepeat_single {α : Type} {p : P α} {i : List Char} {a : α}
    (h : p i = .ok a []) (hne : 0 < i.length) (hnil : p [] = .fail) :
    prepeat p i = .ok [a] [] := by
  unfold prepeat
  rw [show i.length + 1 = i.length + 1 from rfl]
  simp only [prepeatAux, h]
  simp only [List.length_nil, hne, if_pos]
  cases hl : i.length with
  | zero => omega
  | succ n => simp [prepeatAux_nil hnil]

theorem orD_none_right {α : Type} (a : Option α) : orD a none = a := by
  cases a <;> rfl

theorem orD_assoc {α : Type} (a b c : Option α) :
    orD (orD a b) c = orD a (orD b c) := by
  cases a <;> cases b <;> rfl

theorem foldl_applyProp_mode (props : List Property) (e : ResolvedEntry) :
    (props.foldl applyProp e).mode = orD (lastModeOf props) e.mode := by
  induction props generalizing e with
  | nil => rfl
  | cons pr ps ih =>
    show (ps.foldl applyProp (applyProp e pr)).mode = _
    rw [ih]
    cases pr with
    | mode m => show _ = orD (orD (lastModeOf ps) (some m)) e.mode; rw [orD_assoc]; rfl
    | typ t => rfl
    | size n => rfl
    | link s => rfl
    | sha256digest s => rfl
    | time n => rfl

theorem foldl_applyProp_typ (props : List Property) (e : ResolvedEntry) :
    (props.foldl applyProp e).typ = orD (lastTypeOf props) e.typ := by
  induction props generalizing e with
  | nil => rfl
  | cons pr ps ih =>
    show (ps.foldl applyProp (applyProp e pr)).typ = _
    rw [ih]
    cases pr with
    | mode m => rfl
    | typ t => show _ = orD (orD (lastTypeOf ps) (some t)) e.typ; rw [orD_assoc]; rfl
    | size n => rfl
    | link s => rfl
    | sha256digest s => rfl
    | time n => rfl

theorem init_not_mem_acceptedAux_false (l : List Statement) :
    Statement.init ∉ acceptedAux false l := by
  induction l with
  | nil => simp [acceptedAux]
  | cons s rest ih =>
    cases s with
    | init => simpa [acceptedAux] using ih
    | set ps => simpa [acceptedAux] using ih
    | unset ps => simpa [acceptedAux] using ih
    | path p props => simpa [acceptedAux] using ih

theorem acceptedStmts_init_eq_zero (l : List Statement) (i : Nat)
    (h : (acceptedStmts l)[i]? = some .init) : i = 0 := by
  cases l with
  | nil => simp [acceptedStmts, acceptedAux] at h
  | cons s rest =>
    cases s with
    | init =>
      replace h : (Statement.init :: acceptedAux false rest)[i]? = some .init := h
      cases i with
      | zero => rfl
      | succ j =>
        simp only [List.getElem?_cons_succ] at h
        exact absurd (List.getElem?_mem h) (init_not_mem_acceptedAux_false rest)
    | set ps =>
      replace h : (Statement.set ps :: acceptedAux false rest)[i]? = some .init := h
      cases i with
      | zero => simp at h
      | succ j =>
        simp only [List.getElem?_cons_succ] at h
        exact absurd (List.getElem?_mem h) (init_not_mem_acceptedAux_false rest)
    | unset ps =>
      replace h : (Statement.unset ps :: acceptedAux false rest)[i]? = some .init := h
      cases i with
      | zero => simp at h
      | succ j =>
        simp only [List.getElem?_cons_succ] at h
        exact absurd (List.getElem?_mem h) (init_not_mem_acceptedAux_false rest)
    | path p props =>
      replace h : (Statement.path p props :: acceptedAux false rest)[i]? = some .init := h
      cases i with
      | zero => simp at h
      | succ j =>
        simp only [List.getElem?_cons_succ] at h
        exact absurd (List.getElem?_mem h) (init_not_mem_acceptedAux_false rest)

theorem countP_isInitB_acceptedAux_false (l : List Statement) :
    (acceptedAux false l).countP isInitB = 0 := by
  rw [List.countP_eq_zero]
  intro a ha hb
  cases a with
  | init => exact absurd ha (init_not_mem_acceptedAux_false l)
  | set ps => simp [isInitB] at hb
  | unset ps => simp [isInitB] at hb
  | path p props => simp [isInitB] at hb

/-! ## Claim theorems -/

/-- C2: resolving a `PathEntry` leaves the ambient scope (and diagnostics)
unchanged and appends exactly one resolved entry; the resolved entry
depends only on the scope's `mode` and `type` components (`uid`/`gid` are
never carried into it), and each of `mode`/`type` is the last explicit
field when one is present, otherwise the ambient default (explicit always
wins). -/
theorem path_entry_resolution_restricts_and_overrides :
    ∀ (first : Bool) (st : RState) (p : String) (props : List Property),
      resolveStep first st (.path p props)
        = ⟨st.scope, st.manifest ++ [resolveEntry st.scope p props], st.diags⟩
      ∧ ∀ sc : DefaultScope,
          resolveEntry sc p props
            = resolveEntry ⟨none, none, sc.mode, sc.typ⟩ p props
          ∧ (resolveEntry sc p props).mode = orD (lastModeOf props) sc.mode
          ∧ (resolveEntry sc p props).typ = orD (lastTypeOf props) sc.typ := by
  intro first st p props
  refine ⟨rfl, fun sc => ⟨rfl, ?_, ?_⟩⟩
  · exact foldl_applyProp_mode props ⟨p, sc.mode, sc.typ, none, none, none, none⟩
  · exact foldl_applyProp_typ props ⟨p, sc.mode, sc.typ, none, none, none, none⟩

/-- C4: in the accepted statement sequence the `Init` header occurs at most
once and only at position 0; the resolver turns a non-first `Init` into a
`MisplacedHeader` diagnostic and nothing else, and a first `Init` changes
no state. -/
theorem init_header_once_and_first :
    (∀ l : List Statement, (acceptedStmts l).countP isInitB ≤ 1)
    ∧ (∀ (l : List Statement) (i : Nat),
        (acceptedStmts l)[i]? = some .init → i = 0)
    ∧ (∀ st : RState, resolveStep true st .init = st)
    ∧ (∀ st : RState,
        resolveStep false st .init
          = ⟨st.scope, st.manifest, st.diags ++ [.misplacedHeader]⟩) := by
  refine ⟨?_, acceptedStmts_init_eq_zero, fun st => rfl, fun st => rfl⟩
  intro l
  cases l with
  | nil => simp [acceptedStmts, acceptedAux]
  | cons s rest =>
    cases s with
    | init =>
      show (Statement.init :: acceptedAux false rest).countP isInitB ≤ 1
      rw [List.countP_cons, countP_isInitB_acceptedAux_false rest]
      simp [isInitB]
    | set ps =>
      show (Statement.set ps :: acceptedAux false rest).countP isInitB ≤ 1
      rw [List.countP_cons, countP_isInitB_acceptedAux_false rest]
      simp [isInitB]
    | unset ps =>
      show (Statement.unset ps :: acceptedAux false rest).countP isInitB ≤ 1
      rw [List.countP_cons, countP_isInitB_acceptedAux_false rest]
      simp [isInitB]
    | path p props =>
      show (Statement.path p props :: acceptedAux false rest).countP isInitB ≤ 1
      rw [List.countP_cons, countP_isInitB_acceptedAux_false rest]
      simp [isInitB]

/-- C4 witness: instantiating the positional part on the parse
`[#mtree, /set]`, whose accepted sequence starts with `Init`. -/
theorem init_header_once_and_first_witness :
    (0 : Nat) = 0 ∧ resolveStep true ⟨emptyScope, [], []⟩ .init = ⟨emptyScope, [], []⟩ :=
  ⟨init_header_once_and_first.2.1 [Statement.init, Statement.set []] 0 (by decide),
   init_header_once_and_first.2.2.1 ⟨emptyScope, [], []⟩⟩

/-! ## Parser evaluation lemmas (mixed concrete/symbolic inputs) -/

theorem takeWhile_nil_dropWhile {p : Char → Bool} {ys : List Char}
    (h : ys.takeWhile p = []) : ys.dropWhile p = ys := by
  cases ys with
  | nil => rfl
  | cons y ys =>
    simp only [List.takeWhile_cons, List.dropWhile_cons] at *
    cases hy : p y with
    | false => rfl
    | true => simp [hy] at h

theorem ptakeWhile_eval {p : Char → Bool} {xs ys : List Char}
    (hx : ∀ c ∈ xs, p c) (hy : ys.takeWhile p = []) :
    ptakeWhile p (xs ++ ys) = .ok xs ys := by
  unfold ptakeWhile
  rw [takeWhile_append_all ys hx, dropWhile_append_all ys hx, hy,
    List.append_nil, takeWhile_nil_dropWhile hy]

theorem ptakeWhile1_eval {p : Char → Bool} {xs ys : List Char}
    (hne : xs ≠ []) (hx : ∀ c ∈ xs, p c) (hy : ys.takeWhile p = []) :
    ptakeWhile1 p (xs ++ ys) = .ok xs ys := by
  unfold ptakeWhile1
  rw [takeWhile_append_all ys hx, hy, List.append_nil,
    dropWhile_append_all ys hx, takeWhile_nil_dropWhile hy]
  cases xs with
  | nil => exact absurd rfl hne
  | cons x xs => rfl

theorem pstr_head_ne {s : String} {c : Char} {cs : List Char}
    (hs : s.toList = c :: cs) {d : Char} {r : List Char} (hd : d ≠ c) :
    pstr s (d :: r) = .fail := by
  unfold pstr
  rw [hs, if_neg]
  show ¬((c == d && cs.isPrefixOf r) = true)
  simp [Ne.symm hd]

theorem pstr_nil {s : String} {c : Char} {cs : List Char}
    (hs : s.toList = c :: cs) : pstr s [] = .fail := by
  unfold pstr
  rw [hs, if_neg]
  simp [List.isPrefixOf]

theorem pkeyword_append (s : String) {c : Char} (r : List Char)
    (hc : isIdentC c = false) :
    pkeyword s (s.toList ++ c :: r) = .ok () (c :: r) := by
  unfold pkeyword
  rw [if_pos (by rw [List.isPrefixOf_iff_prefix]; exact List.prefix_append _ _),
    List.drop_left]
  simp [hc]

theorem pkeyword_head_ne {s : String} {c : Char} {cs : List Char}
    (hs : s.toList = c :: cs) {d : Char} {r : List Char} (hd : d ≠ c) :
    pkeyword s (d :: r) = .fail := by
  unfold pkeyword
  rw [hs, if_neg]
  show ¬((c == d && cs.isPrefixOf r) = true)
  simp [Ne.symm hd]

theorem pkeyword_nil {s : String} {c : Char} {cs : List Char}
    (hs : s.toList = c :: cs) : pkeyword s [] = .fail := by
  unfold pkeyword
  rw [hs, if_neg]
  simp [List.isPrefixOf]

/-- Evaluate the shared winnow `key=value` scaffold
(`separated_pair(…1, "=", value)`) on `k ++ "=" ++ v ++ " "`. -/
theorem winnow_kv_eval (kclass : Char → Bool) (k v : List Char)
    (hk1 : k ≠ []) (hk : ∀ c ∈ k, kclass c) (heq : kclass '=' = false)
    (hv : ∀ c ∈ v, isValueStopC c = false) :
    pthen (pleft (pmap (ptakeWhile1 kclass) String.mk) (pstr "=")) Winnow.value
      (k ++ '=' :: (v ++ [' ']))
      = .ok (String.mk k, String.mk v) [] := by
  have h1 : ptakeWhile1 kclass (k ++ '=' :: (v ++ [' ']))
      = .ok k ('=' :: (v ++ [' '])) :=
    ptakeWhile1_eval hk1 hk (by simp [List.takeWhile_cons, heq])
  have h2 : pstr "=" ('=' :: (v ++ [' '])) = .ok () (v ++ [' ']) :=
    pstr_append "=" (v ++ [' '])
  have h3 : Winnow.value (v ++ [' ']) = .ok (String.mk v) [] := by
    unfold Winnow.value
    have hval : ptakeWhile (fun c => !isValueStopC c) (v ++ [' '])
        = .ok v [' '] := by
      have : v ++ [' '] = v ++ (' ' :: []) := rfl
      rw [this]
      exact ptakeWhile_eval (by intro c hc; simp [hv c hc])
        (by simp [List.takeWhile_cons, isValueStopC])
    simp only [pmap, pleft, pbind, ppure, hval]
    have hsp : space1 [' '] = .ok [' '] [] := by decide
    simp [palt, hsp]
  simp only [pthen, pleft, pmap, pbind, ppure, h1, h2, h3]

theorem ptakeWhile_all {p : Char → Bool} {xs : List Char} (hx : ∀ c ∈ xs, p c) :
    ptakeWhile p xs = .ok xs [] := by
  have h : ptakeWhile p (xs ++ ([] : List Char)) = .ok xs [] :=
    ptakeWhile_eval hx rfl
  rwa [List.append_nil] at h

theorem ptakeWhile1_all {p : Char → Bool} {xs : List Char} (hne : xs ≠ [])
    (hx : ∀ c ∈ xs, p c) : ptakeWhile1 p xs = .ok xs [] := by
  have h : ptakeWhile1 p (xs ++ ([] : List Char)) = .ok xs [] :=
    ptakeWhile1_eval hne hx rfl
  rwa [List.append_nil] at h

theorem ptakeWhile_head_ne {p : Char → Bool} {c : Char} {r : List Char}
    (hc : p c = false) : ptakeWhile p (c :: r) = .ok [] (c :: r) := by
  unfold ptakeWhile
  simp [List.takeWhile_cons, List.dropWhile_cons, hc]

theorem ptakeWhile1_head_ne {p : Char → Bool} {c : Char} {r : List Char}
    (hc : p c = false) : ptakeWhile1 p (c :: r) = .fail := by
  unfold ptakeWhile1
  simp [List.takeWhile_cons, hc]

theorem pbind_ok {α β : Type} {p : P α} {f : α → P β} {i r : List Char} {a : α}
    (h : p i = .ok a r) : pbind p f i = f a r := by
  simp [pbind, h]

theorem pbind_fail {α β : Type} {p : P α} {f : α → P β} {i : List Char}
    (h : p i = .fail) : pbind p f i = .fail := by
  simp [pbind, h]

theorem pbind_panicked {α β : Type} {p : P α} {f : α → P β} {i : List Char}
    (h : p i = .panicked) : pbind p f i = .panicked := by
  simp [pbind, h]

theorem pmap_ok {α β : Type} {p : P α} {f : α → β} {i r : List Char} {a : α}
    (h : p i = .ok a r) : pmap p f i = .ok (f a) r := by
  simp [pmap, pbind, ppure, h]

theorem pmap_fail {α β : Type} {p : P α} {f : α → β} {i : List Char}
    (h : p i = .fail) : pmap p f i = .fail := by
  simp [pmap, pbind, h]

theorem pmapPanic_ok {α β : Type} {p : P α} {f : α → Option β} {i r : List Char}
    {a : α} {b : β} (h : p i = .ok a r) (hf : f a = some b) :
    pmapPanic p f i = .ok b r := by
  simp [pmapPanic, h, hf]

theorem pmapPanic_none {α β : Type} {p : P α} {f : α → Option β} {i r : List Char}
    {a : α} (h : p i = .ok a r) (hf : f a = none) :
    pmapPanic p f i = .panicked := by
  simp [pmapPanic, h, hf]

theorem pmapPanic_fail {α β : Type} {p : P α} {f : α → Option β} {i : List Char}
    (h : p i = .fail) : pmapPanic p f i = .fail := by
  simp [pmapPanic, h]

theorem pthen_ok {α β : Type} {p : P α} {q : P β} {i r r' : List Char} {a : α}
    {b : β} (hp : p i = .ok a r) (hq : q r = .ok b r') :
    pthen p q i = .ok (a, b) r' := by
  simp [pthen, pbind, pmap, ppure, hp, hq]

theorem pthen_fail {α β : Type} {p : P α} {q : P β} {i : List Char}
    (hp : p i = .fail) : pthen p q i = .fail := by
  simp [pthen, pbind, hp]

theorem pleft_ok {α β : Type} {p : P α} {q : P β} {i r r' : List Char} {a : α}
    {b : β} (hp : p i = .ok a r) (hq : q r = .ok b r') :
    pleft p q i = .ok a r' := by
  simp [pleft, pbind, pmap, ppure, hp, hq]

theorem pleft_fail {α β : Type} {p : P α} {q : P β} {i : List Char}
    (hp : p i = .fail) : pleft p q i = .fail := by
  simp [pleft, pbind, hp]

theorem pleft_fail_right {α β : Type} {p : P α} {q : P β} {i r : List Char}
    {a : α} (hp : p i = .ok a r) (hq : q r = .fail) : pleft p q i = .fail := by
  simp [pleft, pbind, pmap, ppure, hp, hq]

theorem pright_ok {α β : Type} {p : P α} {q : P β} {i r : List Char} {a : α}
    (hp : p i = .ok a r) : pright p q i = q r := by
  simp [pright, pbind, hp]

theorem pright_fail {α β : Type} {p : P α} {q : P β} {i : List Char}
    (hp : p i = .fail) : pright p q i = .fail := by
  simp [pright, pbind, hp]

theorem pto_ok {α β : Type} {p : P α} {b : β} {i r : List Char} {a : α}
    (h : p i = .ok a r) : pto p b i = .ok b r := by
  simp [pto, pmap, pbind, ppure, h]

theorem pto_fail {α β : Type} {p : P α} {b : β} {i : List Char}
    (h : p i = .fail) : pto p b i = .fail := by
  simp [pto, pmap, pbind, h]

theorem palt_fail_left {α : Type} {p q : P α} {i : List Char}
    (h : p i = .fail) : palt p q i = q i := by
  simp [palt, h]

theorem palt_ok {α : Type} {p q : P α} {i r : List Char} {a : α}
    (h : p i = .ok a r) : palt p q i = .ok a r := by
  simp [palt, h]

theorem palt_panicked {α : Type} {p q : P α} {i : List Char}
    (h : p i = .panicked) : palt p q i = .panicked := by
  simp [palt, h]

theorem pverifyMap_accept {α β : Type} {p : P α} {f : α → VRes β}
    {i r : List Char} {a : α} {b : β} (h : p i = .ok a r)
    (hf : f a = .accept b) : pverifyMap p f i = .ok b r := by
  simp [pverifyMap, h, hf]

theorem pverifyMap_reject {α β : Type} {p : P α} {f : α → VRes β}
    {i r : List Char} {a : α} (h : p i = .ok a r) (hf : f a = .reject) :
    pverifyMap p f i = .fail := by
  simp [pverifyMap, h, hf]

theorem pverifyMap_panicked {α β : Type} {p : P α} {f : α → VRes β}
    {i r : List Char} {a : α} (h : p i = .ok a r) (hf : f a = .panicked) :
    pverifyMap p f i = .panicked := by
  simp [pverifyMap, h, hf]

theorem pverifyMap_fail {α β : Type} {p : P α} {f : α → VRes β} {i : List Char}
    (h : p i = .fail) : pverifyMap p f i = .fail := by
  simp [pverifyMap, h]

/-! ## Character-class and numeric-helper lemmas -/

theorem digit_imp_alnum {c : Char} (h : isDigitC c = true) : isAlnumC c = true := by
  simp [isAlnumC, h]

theorem digit_ne_dot {c : Char} (h : isDigitC c = true) : c ≠ '.' :=
  fun e => absurd (e ▸ h) (by decide)

theorem digit_not_stop {c : Char} (h : isDigitC c = true) :
    isValueStopC c = false := by
  have h1 : c ≠ ' ' := fun e => absurd (e ▸ h) (by decide)
  have h2 : c ≠ '\n' := fun e => absurd (e ▸ h) (by decide)
  simp [isValueStopC, h1, h2]

theorem oct_imp_digit {c : Char} (h : isOctC c = true) : isDigitC c = true := by
  simp only [isOctC, Bool.and_eq_true, decide_eq_true_eq] at h
  simp only [isDigitC, Bool.and_eq_true, decide_eq_true_eq]
  exact ⟨h.1, le_trans h.2 (by decide)⟩

theorem stripPlus_digits {s : List Char} (h : ∀ c ∈ s, isDigitC c) :
    stripPlus s = s := by
  cases s with
  | nil => rfl
  | cons c r =>
    have : c ≠ '+' := fun e => absurd (e ▸ h c (by simp)) (by decide)
    simp [stripPlus, this]

theorem parseUsize_digits {s : List Char} (h1 : s ≠ [])
    (h2 : ∀ c ∈ s, isDigitC c) (h3 : natOfDigits s ≤ USIZE_MAX) :
    parseUsize s = some (natOfDigits s) := by
  unfold parseUsize
  rw [stripPlus_digits h2]
  simp only [List.all_eq_true]
  rw [if_pos, if_pos h3]
  simp [h1, List.isEmpty_iff, h2, decide_eq_true_eq]
  intro c hc
  exact h2 c hc

theorem parseUsize_overflow {s : List Char} (h2 : ∀ c ∈ s, isDigitC c)
    (h3 : USIZE_MAX < natOfDigits s) : parseUsize s = none := by
  unfold parseUsize
  rw [stripPlus_digits h2]
  cases hs : s.isEmpty with
  | true =>
    rw [List.isEmpty_iff] at hs
    subst hs
    simp [natOfDigits, USIZE_MAX] at h3
  | false =>
    rw [if_pos, if_neg (by omega)]
    simp only [hs, List.all_eq_true, Bool.not_false, Bool.true_and]
    intro c hc
    exact h2 c hc

theorem splitOnceDot_append {a : List Char} (b : List Char)
    (ha : ∀ c ∈ a, c ≠ '.') : splitOnceDot (a ++ '.' :: b) = some (a, b) := by
  induction a with
  | nil => simp [splitOnceDot]
  | cons c cs ih =>
    have hc : c ≠ '.' := ha c (by simp)
    simp only [List.cons_append, splitOnceDot, if_neg hc]
    show (match splitOnceDot (cs ++ '.' :: b) with
      | some (a, b) => some (c :: a, b)
      | none => none) = some (c :: cs, b)
    rw [ih (fun d hd => ha d (by simp [hd]))]

/-! ## Field-level evaluation lemmas for the winnow parsers -/

theorem winnow_property_mode (v : List Char)
    (hv : ∀ c ∈ v, isValueStopC c = false) :
    Winnow.property ("mode".toList ++ '=' :: (v ++ [' ']))
      = .ok (.mode (String.mk v)) [] := by
  unfold Winnow.property
  have hkv := winnow_kv_eval isAlnumC "mode".toList v (by decide) (by decide)
    (by decide) hv
  refine pverifyMap_accept hkv ?_
  simp +decide

theorem winnow_property_sha (v : List Char)
    (hv : ∀ c ∈ v, isValueStopC c = false) :
    Winnow.property ("sha256digest".toList ++ '=' :: (v ++ [' ']))
      = .ok (.sha256digest (String.mk v)) [] := by
  unfold Winnow.property
  have hkv := winnow_kv_eval isAlnumC "sha256digest".toList v (by decide)
    (by decide) (by decide) hv
  refine pverifyMap_accept hkv ?_
  simp +decide

theorem winnow_property_time (a b : List Char) (ha1 : a ≠ [])
    (ha : ∀ c ∈ a, isDigitC c) (hb : ∀ c ∈ b, isValueStopC c = false)
    (hbound : natOfDigits a ≤ USIZE_MAX) :
    Winnow.property ("time".toList ++ '=' :: ((a ++ '.' :: b) ++ [' ']))
      = .ok (.time (natOfDigits a)) [] := by
  unfold Winnow.property
  have hvstop : ∀ c ∈ a ++ '.' :: b, isValueStopC c = false := by
    intro c hc
    rcases List.mem_append.mp hc with h | h
    · exact digit_not_stop (ha c h)
    · rcases List.mem_cons.mp h with h | h
      · subst h; decide
      · exact hb c h
  have hkv := winnow_kv_eval isAlnumC "time".toList (a ++ '.' :: b) (by decide)
    (by decide) (by decide) hvstop
  have hf : (match splitOnceDot (a ++ '.' :: b) with
      | some ab =>
        match parseUsize ab.1 with
        | some n => VRes.accept (Property.time n)
        | none => VRes.reject
      | none => VRes.reject) = VRes.accept (Property.time (natOfDigits a)) := by
    rw [splitOnceDot_append b (fun c hc => digit_ne_dot (ha c hc))]
    show (match parseUsize a with
      | some n => VRes.accept (Property.time n)
      | none => VRes.reject) = _
    rw [parseUsize_digits ha1 ha hbound]
  exact pverifyMap_accept hkv hf

theorem winnow_default_property_uid_ok (s : List Char) (h1 : s ≠ [])
    (h2 : ∀ c ∈ s, isDigitC c) (h3 : natOfDigits s ≤ USIZE_MAX) :
    Winnow.default_property ("uid".toList ++ '=' :: (s ++ [' ']))
      = .ok (.uid (natOfDigits s)) [] := by
  unfold Winnow.default_property
  have hkv := winnow_kv_eval isAlphaC "uid".toList s (by decide) (by decide)
    (by decide) (fun c hc => digit_not_stop (h2 c hc))
  have hf : (match parseUsize s with
      | some n => VRes.accept (DefaultProperty.uid n)
      | none => VRes.reject) = VRes.accept (DefaultProperty.uid (natOfDigits s)) := by
    rw [parseUsize_digits h1 h2 h3]
  exact pverifyMap_accept hkv hf

theorem winnow_default_property_uid_overflow (s : List Char)
    (h2 : ∀ c ∈ s, isDigitC c) (h3 : USIZE_MAX < natOfDigits s) :
    Winnow.default_property ("uid".toList ++ '=' :: (s ++ [' ']))
      = .fail := by
  unfold Winnow.default_property
  have hkv := winnow_kv_eval isAlphaC "uid".toList s (by decide) (by decide)
    (by decide) (fun c hc => digit_not_stop (h2 c hc))
  have hf : (match parseUsize s with
      | some n => VRes.accept (DefaultProperty.uid n)
      | none => VRes.reject) = (VRes.reject : VRes DefaultProperty) := by
    rw [parseUsize_overflow h2 h3]
  exact pverifyMap_reject hkv hf

/-! ## Evaluation lemmas for the chumsky parsers -/

theorem ptoSlice_all {α : Type} {p : P α} {i : List Char} {a : α}
    (h : p i = .ok a []) : ptoSlice p i = .ok i [] := by
  unfold ptoSlice
  rw [h]
  simp

theorem ppadded_eval_nows {α : Type} {p : P α} {d : Char} {t : List Char}
    {a : α} (hd : isWsC d = false) (hp : p (d :: t) = .ok a []) :
    ppadded p (d :: t) = .ok a [] := by
  unfold ppadded
  rw [pright_ok (ptakeWhile_head_ne hd)]
  exact pleft_ok hp rfl

theorem prepeat_fail_first {α : Type} {p : P α} {i : List Char}
    (h : p i = .fail) : prepeat p i = .ok [] i := by
  unfold prepeat
  simp [prepeatAux, h]

theorem mkString_ne_of_head {c : Char} {l : List Char} {t : String} {d : Char}
    {ds : List Char} (ht : t.toList = d :: ds) (hc : c ≠ d) :
    String.mk (c :: l) ≠ t := by
  intro e
  have : (String.mk (c :: l)).toList = t.toList := by rw [e]
  rw [ht] at this
  exact hc (List.cons.injEq .. ▸ this).1

theorem alpha_not_spacetab {c : Char} (h : isAlphaC c = true) :
    isSpaceTabC c = false := by
  have h1 : c ≠ ' ' := fun e => absurd (e ▸ h) (by decide)
  have h2 : c ≠ '\t' := fun e => absurd (e ▸ h) (by decide)
  simp [isSpaceTabC, h1, h2]

theorem alpha_ne_nl {c : Char} (h : isAlphaC c = true) : c ≠ '\n' :=
  fun e => absurd (e ▸ h) (by decide)

theorem alpha_ne_cr {c : Char} (h : isAlphaC c = true) : c ≠ '\r' :=
  fun e => absurd (e ▸ h) (by decide)

theorem chumsky_default_alt_uid_ok (s : List Char) (h1 : s ≠ [])
    (h2 : ∀ c ∈ s, isDigitC c) (h3 : natOfDigits s ≤ USIZE_MAX) :
    Chumsky.default_alt ("uid".toList ++ '=' :: s)
      = .ok (.uid (natOfDigits s)) [] := by
  unfold Chumsky.default_alt
  simp only [pchoice, List.foldr]
  have hthen : pthen (pkeyword "uid") (pchar '=') ("uid".toList ++ '=' :: s)
      = .ok ((), ()) s :=
    pthen_ok (pkeyword_append "uid" s (by decide)) (by simp [pchar])
  have hp : pright (pthen (pkeyword "uid") (pchar '=')) (ptakeWhile1 isDigitC)
      ("uid".toList ++ '=' :: s) = .ok s [] :=
    (pright_ok hthen).trans (ptakeWhile1_all h1 h2)
  have hf : (parseUsize s).map DefaultProperty.uid
      = some (.uid (natOfDigits s)) := by
    rw [parseUsize_digits h1 h2 h3]; rfl
  rw [palt_ok (pmapPanic_ok hp hf)]

theorem chumsky_default_alt_uid_overflow (s : List Char) (h1 : s ≠ [])
    (h2 : ∀ c ∈ s, isDigitC c) (h3 : USIZE_MAX < natOfDigits s) :
    Chumsky.default_alt ("uid".toList ++ '=' :: s) = .panicked := by
  unfold Chumsky.default_alt
  simp only [pchoice, List.foldr]
  have hthen : pthen (pkeyword "uid") (pchar '=') ("uid".toList ++ '=' :: s)
      = .ok ((), ()) s :=
    pthen_ok (pkeyword_append "uid" s (by decide)) (by simp [pchar])
  have hp : pright (pthen (pkeyword "uid") (pchar '=')) (ptakeWhile1 isDigitC)
      ("uid".toList ++ '=' :: s) = .ok s [] :=
    (pright_ok hthen).trans (ptakeWhile1_all h1 h2)
  have hf : (parseUsize s).map DefaultProperty.uid = none := by
    rw [parseUsize_overflow h2 h3]; rfl
  rw [palt_panicked (pmapPanic_none hp hf)]

theorem chumsky_property_alt_time (a b : List Char) (ha1 : a ≠ [])
    (ha : ∀ c ∈ a, isDigitC c) (hb1 : b ≠ []) (hb : ∀ c ∈ b, isDigitC c)
    (hbound : natOfDigits a ≤ USIZE_MAX) :
    Chumsky.property_alt ("time".toList ++ '=' :: (a ++ '.' :: b))
      = .ok (.time (natOfDigits a)) [] := by
  unfold Chumsky.property_alt
  simp only [pchoice, List.foldr]
  have hf1 : pmap
      (pright (pthen (pkeyword "mode") (pchar '=')) (ptakeWhile1 isOctC))
      (fun s => Property.mode (String.mk s))
      ("time".toList ++ '=' :: (a ++ '.' :: b)) = .fail :=
    pmap_fail (pright_fail (pthen_fail (pkeyword_head_ne rfl (by decide))))
  have hf2 : pmap
      (pright (pthen (pkeyword "sha256digest") (pchar '='))
        (ptakeWhile1 isHexC))
      (fun s => Property.sha256digest (String.mk s))
      ("time".toList ++ '=' :: (a ++ '.' :: b)) = .fail :=
    pmap_fail (pright_fail (pthen_fail (pkeyword_head_ne rfl (by decide))))
  have hf3 : pmapPanic
      (pright (pthen (pkeyword "size") (pchar '=')) (ptakeWhile1 isDigitC))
      (fun s => (parseUsize s).map Property.size)
      ("time".toList ++ '=' :: (a ++ '.' :: b)) = .fail :=
    pmapPanic_fail (pright_fail (pthen_fail (pkeyword_head_ne rfl (by decide))))
  have hthen : pthen (pkeyword "time") (pchar '=')
      ("time".toList ++ '=' :: (a ++ '.' :: b)) = .ok ((), ()) (a ++ '.' :: b) :=
    pthen_ok (pkeyword_append "time" (a ++ '.' :: b) (by decide)) (by simp [pchar])
  have hrun1 : ptakeWhile1 isDigitC (a ++ '.' :: b) = .ok a ('.' :: b) :=
    ptakeWhile1_eval ha1 ha (by simp +decide [List.takeWhile_cons])
  have hA : pright (pthen (pkeyword "time") (pchar '=')) (ptakeWhile1 isDigitC)
      ("time".toList ++ '=' :: (a ++ '.' :: b)) = .ok a ('.' :: b) :=
    (pright_ok hthen).trans hrun1
  have hB : pleft
      (pright (pthen (pkeyword "time") (pchar '=')) (ptakeWhile1 isDigitC))
      (pchar '.') ("time".toList ++ '=' :: (a ++ '.' :: b)) = .ok a b :=
    pleft_ok hA (show pchar '.' ('.' :: b) = .ok () b by simp [pchar])
  have hC : pleft
      (pleft
        (pright (pthen (pkeyword "time") (pchar '=')) (ptakeWhile1 isDigitC))
        (pchar '.'))
      (ptakeWhile1 isDigitC) ("time".toList ++ '=' :: (a ++ '.' :: b))
      = .ok a [] :=
    pleft_ok hB (ptakeWhile1_all hb1 hb)
  have hf : (parseUsize a).map Property.time
      = some (.time (natOfDigits a)) := by
    rw [parseUsize_digits ha1 ha hbound]; rfl
  rw [palt_fail_left hf1, palt_fail_left hf2, palt_fail_left hf3,
    palt_ok (pmapPanic_ok hC hf)]

theorem chumsky_properties_time (a b : List Char) (ha1 : a ≠ [])
    (ha : ∀ c ∈ a, isDigitC c) (hb1 : b ≠ []) (hb : ∀ c ∈ b, isDigitC c)
    (hbound : natOfDigits a ≤ USIZE_MAX) :
    Chumsky.properties ("time".toList ++ '=' :: (a ++ '.' :: b))
      = .ok [.time (natOfDigits a)] [] := by
  unfold Chumsky.properties
  have hone : ppadded Chumsky.property_alt ("time".toList ++ '=' :: (a ++ '.' :: b))
      = .ok (.time (natOfDigits a)) [] :=
    ppadded_eval_nows (by decide)
      (chumsky_property_alt_time a b ha1 ha hb1 hb hbound)
  exact prepeat_single hone (by simp) (by decide)

theorem winnow_value_eval (q : List Char)
    (hq : ∀ c ∈ q, isValueStopC c = false) :
    Winnow.value (q ++ ['\n']) = .ok (String.mk q) [] := by
  unfold Winnow.value
  have htw : ptakeWhile (fun c => !isValueStopC c) (q ++ ['\n'])
      = .ok q ['\n'] :=
    ptakeWhile_eval (fun c hc => by simp [hq c hc]) (by decide)
  have halt : palt space1 line_ending ['\n'] = .ok "\n".toList [] := by decide
  exact pmap_ok (pleft_ok htw halt)

theorem winnow_statement_path (q : List Char)
    (hq : ∀ c ∈ q, isValueStopC c = false) :
    Winnow.statement ('.' :: (q ++ ['\n']))
      = .ok (.path (String.mk ('.' :: (q ++ ['\n']))) []) [] := by
  have hdot : pstr "." ('.' :: (q ++ ['\n'])) = .ok () (q ++ ['\n']) :=
    pstr_append "." (q ++ ['\n'])
  have hsl : ptoSlice (pthen (pstr ".") Winnow.value) ('.' :: (q ++ ['\n']))
      = .ok ('.' :: (q ++ ['\n'])) [] :=
    ptoSlice_all (pthen_ok hdot (winnow_value_eval q hq))
  unfold Winnow.statement
  simp only [pchoice, List.foldr]
  rw [pbind_ok (palt_ok hsl)]
  show (if String.mk ('.' :: (q ++ ['\n'])) = "/set " then
      pmap Winnow.default_properties Statement.set
    else if String.mk ('.' :: (q ++ ['\n'])) = "/unset " then
      pmap Winnow.default_properties Statement.unset
    else if String.mk ('.' :: (q ++ ['\n'])) = "#mtree" then
      ppure Statement.init
    else pmap Winnow.properties (Statement.path (String.mk ('.' :: (q ++ ['\n'])))))
    [] = .ok (.path (String.mk ('.' :: (q ++ ['\n']))) []) []
  rw [if_neg (mkString_ne_of_head rfl (by decide)),
    if_neg (mkString_ne_of_head rfl (by decide)),
    if_neg (mkString_ne_of_head rfl (by decide))]
  exact pmap_ok (show Winnow.properties [] = .ok [] [] by decide)

theorem chumsky_parse_path (q : List Char) (hq : ∀ c ∈ q, c ≠ ' ') :
    Chumsky.parse ('.' :: q) = .ok [.path (String.mk ('.' :: q)) []] [] := by
  have hdot : pstr "." ('.' :: q) = .ok () q := pstr_append "." q
  have htw : ptakeWhile (fun c => decide (c ≠ ' ')) q = .ok q [] :=
    ptakeWhile_all (fun c hc => by simp [hq c hc])
  have hsl : ptoSlice (pthen (pstr ".") (ptakeWhile fun c => decide (c ≠ ' ')))
      ('.' :: q) = .ok ('.' :: q) [] :=
    ptoSlice_all (pthen_ok hdot htw)
  have hpath : Chumsky.path ('.' :: q)
      = .ok (.path (String.mk ('.' :: q)) []) [] := by
    unfold Chumsky.path
    exact pmap_ok (pthen_ok hsl (show Chumsky.properties [] = .ok [] [] by decide))
  have hmtree : Chumsky.mtree ('.' :: q) = .fail := by
    unfold Chumsky.mtree
    exact pto_fail (pleft_fail (pthen_fail (pstr_head_ne rfl (by decide))))
  have hset : Chumsky.set ('.' :: q) = .fail := by
    unfold Chumsky.set
    exact pmap_fail (pright_fail (pthen_fail (pstr_head_ne rfl (by decide))))
  have hunset : Chumsky.unset ('.' :: q) = .fail := by
    unfold Chumsky.unset
    exact pto_fail (pleft_fail (pstr_head_ne rfl (by decide)))
  have hch : pchoice [Chumsky.mtree, Chumsky.set, Chumsky.unset, Chumsky.path]
      ('.' :: q) = .ok (.path (String.mk ('.' :: q)) []) [] := by
    simp only [pchoice, List.foldr]
    rw [palt_fail_left hmtree, palt_fail_left hset, palt_fail_left hunset,
      palt_ok hpath]
  have htop : Chumsky.parser_chumsky ('.' :: q)
      = .ok [.path (String.mk ('.' :: q)) []] [] := by
    unfold Chumsky.parser_chumsky
    exact prepeat_single hch (by simp) (by decide)
  unfold Chumsky.parse
  rw [htop]

theorem winnow_unset_bare_key (k : List Char) (hk1 : k ≠ [])
    (hk : ∀ c ∈ k, isAlphaC c) :
    Winnow.unset ("/unset".toList ++ ' ' :: (k ++ ['\n'])) = .fail := by
  cases k with
  | nil => exact absurd rfl hk1
  | cons c cs =>
    have hc : isAlphaC c := hk c (by simp)
    have hstr : pstr "/unset" ("/unset".toList ++ ' ' :: ((c :: cs) ++ ['\n']))
        = .ok () (' ' :: ((c :: cs) ++ ['\n'])) :=
      pstr_append "/unset" (' ' :: ((c :: cs) ++ ['\n']))
    have hsp : space0 (' ' :: ((c :: cs) ++ ['\n']))
        = .ok [' '] ((c :: cs) ++ ['\n']) := by
      show ptakeWhile isSpaceTabC ([' '] ++ ((c :: cs) ++ ['\n']))
        = .ok [' '] ((c :: cs) ++ ['\n'])
      exact ptakeWhile_eval (by decide)
        (by simp [List.takeWhile_cons, alpha_not_spacetab hc])
    have halpha : ptakeWhile1 isAlphaC ((c :: cs) ++ ['\n'])
        = .ok (c :: cs) ['\n'] :=
      ptakeWhile1_eval hk1 hk (by decide)
    have hinner : pleft (pmap alpha1 String.mk) (pstr "=")
        ((c :: cs) ++ ['\n']) = .fail :=
      pleft_fail_right (pmap_ok halpha) (pstr_head_ne rfl (by decide))
    have hdp : Winnow.default_property ((c :: cs) ++ ['\n']) = .fail := by
      unfold Winnow.default_property
      exact pverifyMap_fail (pthen_fail hinner)
    have hdps : Winnow.default_properties ((c :: cs) ++ ['\n'])
        = .ok [] ((c :: cs) ++ ['\n']) := by
      unfold Winnow.default_properties
      exact prepeat_fail_first hdp
    have hle : line_ending ((c :: cs) ++ ['\n']) = .fail := by
      have hn : pto (pstr "\n") "\n".toList ((c :: cs) ++ ['\n']) = .fail :=
        pto_fail (pstr_head_ne rfl (alpha_ne_nl hc))
      have hrn : pto (pstr "\x0d\n") "\x0d\n".toList ((c :: cs) ++ ['\n']) = .fail :=
        pto_fail (pstr_head_ne rfl (alpha_ne_cr hc))
      unfold line_ending
      rw [palt_fail_left hn]
      exact hrn
    have hAB : pright (pthen (pstr "/unset") space0) Winnow.default_properties
        ("/unset".toList ++ ' ' :: ((c :: cs) ++ ['\n']))
        = .ok [] ((c :: cs) ++ ['\n']) :=
      (pright_ok (pthen_ok hstr hsp)).trans hdps
    unfold Winnow.unset
    exact pmap_fail (pleft_fail_right hAB hle)

theorem chumsky_unset_stops (r : List Char) :
    Chumsky.unset ("/unset ".toList ++ r) = .ok (.unset []) (' ' :: r) := by
  unfold Chumsky.unset
  have hslash : pstr "/" ("/unset ".toList ++ r)
      = .ok () ("unset ".toList ++ r) :=
    pstr_append "/" ("unset ".toList ++ r)
  have hkw : pkeyword "unset" ("unset ".toList ++ r) = .ok () (' ' :: r) :=
    pkeyword_append "unset" r (by decide)
  exact pto_ok (pleft_ok hslash hkw)

/-- C1 counterexample: a field with an unknown key is not a field-scoped
diagnostic — the winnow `default_property` closure panics on it. -/
theorem c1_unknown_key_panics :
    Winnow.default_property ("foo=bar ".toList) = .panicked := by decide

/-- C1 (amended): an unknown key or an unrecognized `type` value makes the
field closures panic (in `default_property` and `property`, and through the
whole `parser` on a `/set` line); an unparsable value such as a non-numeric
uid makes the field parser fail without a panic, and the remaining fields
of the line are then abandoned, not parsed (the `/set` line yields
`Set([])` with `mode=0644` left unconsumed). -/
theorem c1_field_failure_behavior :
    Winnow.default_property ("type=block ".toList) = .panicked
    ∧ Winnow.property ("foo=bar ".toList) = .panicked
    ∧ Winnow.parser ("/set foo=bar\n".toList) = .panicked
    ∧ Winnow.default_property ("uid=abc ".toList) = .fail
    ∧ Winnow.parser ("/set uid=abc mode=0644\n".toList)
        = .ok [.set []] ("uid=abc mode=0644\n".toList) := by
  refine ⟨by decide, by decide, by decide, by decide, by decide⟩

/-- C3 counterexample: an `/unset` line with a bare key is not parsed into
an `UnsetDirective` with that key — the winnow `unset` parser fails on it. -/
theorem c3_unset_bare_key_cex :
    Winnow.unset ("/unset uid\n".toList) = .fail := by decide

/-- C3 (amended): tokens after `/unset` are not parsed as bare keys: the
winnow `unset` helper fails on any bare alphabetic key, the winnow
pipeline parses `key=value` pairs after `/unset ` (a bare key ends the
list, yielding `Unset([])` with the key left unconsumed), and the chumsky
`unset` parser consumes nothing after the keyword and always returns
`Unset([])`; an `/unset` line with zero tokens yields `Unset([])`. -/
theorem c3_unset_behavior :
    (∀ k : List Char, k ≠ [] → (∀ c ∈ k, isAlphaC c) →
      Winnow.unset ("/unset".toList ++ ' ' :: (k ++ ['\n'])) = .fail)
    ∧ (∀ r : List Char,
        Chumsky.unset ("/unset ".toList ++ r) = .ok (.unset []) (' ' :: r))
    ∧ Winnow.parser ("/unset uid\n".toList) = .ok [.unset []] ("uid\n".toList)
    ∧ Winnow.parser ("/unset uid=0\n".toList) = .ok [.unset [.uid 0]] []
    ∧ Winnow.unset ("/unset\n".toList) = .ok (.unset []) [] := by
  exact ⟨winnow_unset_bare_key, chumsky_unset_stops, by decide, by decide,
    by decide⟩

/-- C3 witness: the bare-key failure at the concrete key `gid`. -/
theorem c3_unset_behavior_witness :
    Winnow.unset ("/unset".toList ++ ' ' :: ("gid".toList ++ ['\n'])) = .fail :=
  c3_unset_behavior.1 "gid".toList (by decide) (by decide)

/-- C5 counterexample: a 2-character digest value parses successfully, so
digest parsing does not require 64 hexadecimal characters. -/
theorem c5_short_digest_accepted :
    Winnow.property ("sha256digest=ab\n".toList)
      = .ok (.sha256digest "ab") [] := by decide

/-- C5 (amended): digest fields carry no length check: the winnow
`property` parser stores any non-whitespace value verbatim, and the
chumsky parser accepts any nonempty run of hexadecimal digits — 63- and
65-character digests parse, and no `InvalidDigestLength` diagnostic
exists; in each case the entry's digest field is present with the given
value. -/
theorem c5_digest_no_length_check :
    (∀ v : List Char, (∀ c ∈ v, isValueStopC c = false) →
      Winnow.property ("sha256digest".toList ++ '=' :: (v ++ [' ']))
        = .ok (.sha256digest (String.mk v)) [])
    ∧ Chumsky.properties
        ("sha256digest=0123456789abcdef0123456789abcdef0123456789abcdef0123456789abcde".toList)
        = .ok [.sha256digest
            "0123456789abcdef0123456789abcdef0123456789abcdef0123456789abcde"] []
    ∧ Chumsky.properties
        ("sha256digest=0123456789abcdef0123456789abcdef0123456789abcdef0123456789abcdef0".toList)
        = .ok [.sha256digest
            "0123456789abcdef0123456789abcdef0123456789abcdef0123456789abcdef0"] [] := by
  exact ⟨winnow_property_sha, by decide, by decide⟩

/-- C5 witness: the winnow digest parser at the concrete 3-character
value `abc`. -/
theorem c5_digest_no_length_check_witness :
    Winnow.property ("sha256digest".toList ++ '=' :: ("abc".toList ++ [' ']))
      = .ok (.sha256digest "abc") [] :=
  c5_digest_no_length_check.1 "abc".toList (by decide)

/-- C6 counterexample: a non-octal mode value (`zz`) is accepted by the
winnow `property` parser, so mode is not restricted to 1–4 octal digits. -/
theorem c6_nonoctal_mode_accepted :
    Winnow.property ("mode=zz\n".toList) = .ok (.mode "zz") [] := by decide

/-- C6 (amended): the winnow `property` parser accepts any non-whitespace
mode value and stores it verbatim (no octal check, no length check); the
chumsky parser accepts any nonempty run of octal digits with no 4-digit
cap (a 5-digit mode parses) and stores the raw digit string unchanged. -/
theorem c6_mode_no_octal_or_length_check :
    (∀ v : List Char, (∀ c ∈ v, isValueStopC c = false) →
      Winnow.property ("mode".toList ++ '=' :: (v ++ [' ']))
        = .ok (.mode (String.mk v)) [])
    ∧ Chumsky.properties ("mode=00000".toList) = .ok [.mode "00000"] []
    ∧ Chumsky.properties ("mode=7".toList) = .ok [.mode "7"] [] := by
  exact ⟨winnow_property_mode, by decide, by decide⟩

/-- C6 witness: the winnow mode parser at the concrete value `0755`. -/
theorem c6_mode_no_octal_or_length_check_witness :
    Winnow.property ("mode".toList ++ '=' :: ("0755".toList ++ [' ']))
      = .ok (.mode "0755") [] :=
  c6_mode_no_octal_or_length_check.1 "0755".toList (by decide)

/-- C7 counterexample: the winnow `statement` parser keeps the terminating
whitespace inside the path field (`"./foo "`, with a trailing space). -/
theorem c7_path_keeps_terminator :
    Winnow.statement ("./foo mode=0644\n".toList)
      = .ok (.path "./foo " [.mode "0644"]) [] := by decide

/-- C7 (amended): the winnow `statement` parser's path field is the taken
slice including the `value` terminator (a path line ending in a newline
keeps that newline in the path); the chumsky parser's path is `.` plus the
maximal run of non-space characters, which can include embedded newlines;
the dead winnow `path` helper drops the leading dot and cannot parse a
normal single-spaced line; subsequent `key=value` tokens are parsed as
path-property fields. -/
theorem c7_path_token_behavior :
    (∀ q : List Char, (∀ c ∈ q, isValueStopC c = false) →
      Winnow.statement ('.' :: (q ++ ['\n']))
        = .ok (.path (String.mk ('.' :: (q ++ ['\n']))) []) [])
    ∧ (∀ q : List Char, (∀ c ∈ q, c ≠ ' ') →
        Chumsky.parse ('.' :: q) = .ok [.path (String.mk ('.' :: q)) []] [])
    ∧ Chumsky.parse ("./a\nb mode=0644\n".toList)
        = .ok [.path "./a\nb" [.mode "0644"]] []
    ∧ Winnow.path ("./foo mode=0644\n".toList) = .fail
    ∧ Winnow.path (".foo\n \n".toList) = .ok (.path "foo" []) [] := by
  exact ⟨winnow_statement_path, chumsky_parse_path, by decide, by decide,
    by decide⟩

/-- C7 witness: the winnow path-with-newline-terminator behavior at the
concrete path `./x`. -/
theorem c7_path_token_behavior_witness :
    Winnow.statement ('.' :: ("/x".toList ++ ['\n']))
      = .ok (.path "./x\n" []) [] :=
  c7_path_token_behavior.1 "/x".toList (by decide)

/-- C8: the fractional-seconds suffix of a time value is discarded and the
`Time` property is the decimal integer before the first `.` — universally
for the winnow `property` parser (any non-whitespace fraction, split at
the first dot) and for the chumsky property list (digit fraction), plus a
concrete two-dot example showing the first dot wins. -/
theorem c8_time_fraction_discarded :
    (∀ a b : List Char, a ≠ [] → (∀ c ∈ a, isDigitC c) →
      (∀ c ∈ b, isValueStopC c = false) → natOfDigits a ≤ USIZE_MAX →
      Winnow.property ("time".toList ++ '=' :: ((a ++ '.' :: b) ++ [' ']))
        = .ok (.time (natOfDigits a)) [])
    ∧ (∀ a b : List Char, a ≠ [] → (∀ c ∈ a, isDigitC c) → b ≠ [] →
        (∀ c ∈ b, isDigitC c) → natOfDigits a ≤ USIZE_MAX →
        Chumsky.properties ("time".toList ++ '=' :: (a ++ '.' :: b))
          = .ok [.time (natOfDigits a)] [])
    ∧ Winnow.property ("time=12.5.9 ".toList) = .ok (.time 12) [] := by
  refine ⟨winnow_property_time, ?_, by decide⟩
  intro a b ha1 ha hb1 hb hbound
  exact chumsky_properties_time a b ha1 ha hb1 hb hbound

/-- C8 witness: the winnow time parser at the concrete value `7.25`. -/
theorem c8_time_fraction_discarded_witness :
    Winnow.property ("time".toList ++ '=' :: (("7".toList ++ '.' :: "25".toList) ++ [' ']))
      = .ok (.time 7) [] :=
  c8_time_fraction_discarded.1 "7".toList "25".toList (by decide) (by decide)
    (by decide) (by decide)

/-- C9 counterexample: the 21-digit value 2^64 = 18446744073709551616 is a
non-negative base-10 integer, yet the winnow uid field fails on it instead
of yielding that integer. -/
theorem c9_uid_overflow_not_accepted :
    Winnow.default_property ("uid=18446744073709551616 ".toList) = .fail := by
  decide

/-- C9 (amended): a uid (or gid) value parses exactly when its decimal
value fits in 64-bit `usize`: in-range values yield the integer in both
implementations; an out-of-range value fails the field in the winnow
parser and panics (`.unwrap()` on a failed parse) in the chumsky parser,
up through the whole chumsky parse of a `/set` line. -/
theorem c9_uid_range_behavior :
    (∀ s : List Char, s ≠ [] → (∀ c ∈ s, isDigitC c) →
      natOfDigits s ≤ USIZE_MAX →
      Winnow.default_property ("uid".toList ++ '=' :: (s ++ [' ']))
        = .ok (.uid (natOfDigits s)) [])
    ∧ (∀ s : List Char, (∀ c ∈ s, isDigitC c) → USIZE_MAX < natOfDigits s →
        Winnow.default_property ("uid".toList ++ '=' :: (s ++ [' ']))
          = .fail)
    ∧ (∀ s : List Char, s ≠ [] → (∀ c ∈ s, isDigitC c) →
        natOfDigits s ≤ USIZE_MAX →
        Chumsky.default_alt ("uid".toList ++ '=' :: s)
          = .ok (.uid (natOfDigits s)) [])
    ∧ (∀ s : List Char, s ≠ [] → (∀ c ∈ s, isDigitC c) →
        USIZE_MAX < natOfDigits s →
        Chumsky.default_alt ("uid".toList ++ '=' :: s) = .panicked)
    ∧ Chumsky.parse ("/set uid=18446744073709551616\n".toList) = .panicked
    ∧ Winnow.default_property ("gid=5 ".toList) = .ok (.gid 5) [] := by
  exact ⟨winnow_default_property_uid_ok, winnow_default_property_uid_overflow,
    chumsky_default_alt_uid_ok, chumsky_default_alt_uid_overflow,
    by decide, by decide⟩

/-- C9 witness: the winnow uid parser at the concrete in-range value 42. -/
theorem c9_uid_range_behavior_witness :
    Winnow.default_property ("uid".toList ++ '=' :: ("42".toList ++ [' ']))
      = .ok (.uid 42) [] :=
  c9_uid_range_behavior.1 "42".toList (by decide) (by decide) (by decide)

/-- C10 counterexample: on `./foo mode=0644\n` both implementations
succeed but return different statement sequences. -/
theorem c10_parsers_disagree :
    Winnow.parser ("./foo mode=0644\n".toList)
      = .ok [.path "./foo " [.mode "0644"]] []
    ∧ Chumsky.parse ("./foo mode=0644\n".toList)
      = .ok [.path "./foo" [.mode "0644"]] []
    ∧ [Statement.path "./foo " [.mode "0644"]]
        ≠ [Statement.path "./foo" [.mode "0644"]] := by
  refine ⟨by decide, by decide, by decide⟩

/-- C10 (amended): the two implementations are not equivalent on inputs
both accept: the winnow `statement` parser keeps the path's whitespace
terminator in the path field while the chumsky parser stops the path at a
space, so on `./foo mode=0644\n` the outputs differ exactly in the path
field (`"./foo "` vs `"./foo"`) with identical properties; when the path
is terminated by a newline both keep it and agree. -/
theorem c10_disagreement_in_path_terminator :
    Winnow.parser ("./foo mode=0644\n".toList)
      = .ok [.path ("./foo" ++ " ") [.mode "0644"]] []
    ∧ Chumsky.parse ("./foo mode=0644\n".toList)
      = .ok [.path "./foo" [.mode "0644"]] []
    ∧ Winnow.parser ("./foo\n".toList) = .ok [.path "./foo\n" []] []
    ∧ Chumsky.parse ("./foo\n".toList) = .ok [.path "./foo\n" []] [] := by
  refine ⟨by decide, by decide, by decide, by decide⟩
